import Mathlib

/-!
Verification development for the MLDL image-classification scripts.

The repository consists of two Python scripts:
  * `ML test.py`: builds Keras `ImageDataGenerator` feeds (`image_generator`),
    assembles a transfer-learning model (`get_model`), compiles it with an
    SGD optimizer driven by a `PiecewiseConstantDecay` schedule
    (`lr_schedule`), and trains with a best-only `ModelCheckpoint`
    (`cp_callback`).
  * `누끼.py`: a background-removal batch job (glob `./avante n/*.png`,
    rembg + counter-named outputs) and an image-resize batch job
    (glob `./data/k9/*.jpg`, resize to 256×256, save `title + '_half' + ext`).

Strings are modelled as `List Char` (`PyStr`); the Python string operations
used by the scripts (`str.find`, slicing `s[:i]`, `os.path.splitext`) are
embedded below, faithful to CPython semantics (negative `find` result,
negative-index slicing, `ntpath`/`genericpath._splitext` with both `/` and
`\` as separators and the leading-dot basename rule).
-/

/-- Python strings, modelled as lists of characters. -/
abbrev PyStr := List Char

/-- Index of the first occurrence of `c`, if any. -/
def pyFindAux (c : Char) : PyStr → Option ℕ
  | [] => none
  | a :: rest => if a = c then some 0 else (pyFindAux c rest).map (fun i => i + 1)

/-- `s.find(c)`: index of the first occurrence of `c` in `s`, or `-1` if
`c` does not occur (CPython `str.find`). -/
def pyFind (s : PyStr) (c : Char) : Int :=
  match pyFindAux c s with
  | some i => (i : Int)
  | none => -1

/-- `s.rfind(c)`: index of the last occurrence of `c` in `s`, or `-1`. -/
def pyRfind (s : PyStr) (c : Char) : Int :=
  match s.reverse.findIdx? (fun x => x = c) with
  | some i => (s.length : Int) - 1 - (i : Int)
  | none => -1

/-- Python slice `s[:i]`: for `i ≥ 0` the first `i` characters; for `i < 0`
the first `len(s) + i` characters (clamped at 0, as in CPython). -/
def pySliceTo (s : PyStr) (i : Int) : PyStr :=
  if i < 0 then s.take (s.length - (-i).toNat) else s.take i.toNat

/-- `os.path.splitext(p)`: splits `p` into `(root, ext)`.  Embeds
`genericpath._splitext` with `sep = '\\'` and `altsep = '/'` (the Windows
variant; it agrees with the POSIX variant on every path these scripts
produce): the extension starts at the last dot, provided the dot lies after
the last separator and some character of the basename before the dot is not
itself a dot. -/
def pySplitext (p : PyStr) : PyStr × PyStr :=
  let sepIndex := max (pyRfind p '\\') (pyRfind p '/')
  let dotIndex := pyRfind p '.'
  if sepIndex < dotIndex ∧
      ((p.drop (sepIndex + 1).toNat).take (dotIndex - sepIndex - 1).toNat).any
        (fun ch => ch ≠ '.') then
    (p.take dotIndex.toNat, p.drop dotIndex.toNat)
  else
    (p, [])




/-!
## PIL-side image and file-system model (`누끼.py`)

Images are tracked symbolically: a pixel buffer is either the stored content
of a source file, or the result of one of the operations the scripts apply
(`convert('RGB')`, `resize((w, h))`, rembg's `remove`).  `pimgSize` gives the
resolution of such a buffer, with the resolution of each stored file supplied
by an environment `env`.
-/

/-- A PIL image buffer, tracked by provenance: `Image.open(f)` is `file f`,
`.convert('RGB')` is `rgb`, `.resize((w, h))` is `resized w h`, and rembg's
`remove` is `removedBg`. -/
inductive PImg where
  | file (path : PyStr)
  | rgb (img : PImg)
  | resized (w h : ℕ) (img : PImg)
  | removedBg (img : PImg)
deriving DecidableEq

/-- Resolution of an image buffer: `resize((w, h))` yields exactly `(w, h)`;
`convert` and `remove` preserve resolution; a stored file has the resolution
the environment assigns to its path. -/
def pimgSize (env : PyStr → ℕ × ℕ) : PImg → ℕ × ℕ
  | .file p => env p
  | .rgb i => pimgSize env i
  | .resized w h _ => (w, h)
  | .removedBg i => pimgSize env i

/-- A file-system effect issued by a batch job.  The scripts only ever issue
`write` (`Image.save`) and `mkdir` (`os.mkdir`); `delete` is in the type so
that "the jobs never delete anything" is a contentful statement. -/
inductive Effect where
  | write (path : PyStr) (img : PImg)
  | mkdir (path : PyStr)
  | delete (path : PyStr)
deriving DecidableEq

/-- Replay a list of effects against a file-system state mapping each path to
its current content (`none` = absent). -/
def runEffects (fs : PyStr → Option PImg) : List Effect → (PyStr → Option PImg)
  | [] => fs
  | .write p i :: rest => runEffects (fun q => if q = p then some i else fs q) rest
  | .mkdir _ :: rest => runEffects fs rest
  | .delete p :: rest => runEffects (fun q => if q = p then none else fs q) rest

/-- The write paths occurring in an effect trace, in order. -/
def writesOf (es : List Effect) : List PyStr :=
  es.filterMap fun e =>
    match e with
    | .write p _ => some p
    | _ => none

/-!
### The resize batch job (`이미지 크기변환.py` half of `누끼.py`)

```python
files = glob.glob('./data/k9/*.jpg')
for f in files:
    img = Image.open(f).convert('RGB')
    img_resize = img.resize((256,256))
    title, ext = os.path.splitext(f)
    img_resize.save(title + '_half' + ext)
```
-/

/-- The path the resize job saves to for source file `f`:
`title + '_half' + ext` where `title, ext = os.path.splitext(f)`. -/
def resizeSavePath (f : PyStr) : PyStr :=
  (pySplitext f).1 ++ "_half".toList ++ (pySplitext f).2

/-- The image the resize job saves for source file `f`:
`Image.open(f).convert('RGB').resize((256,256))`. -/
def resizeOutImg (f : PyStr) : PImg :=
  PImg.resized 256 256 (PImg.rgb (PImg.file f))

/-- One iteration of the resize loop: a single write effect. -/
def resizeStep (f : PyStr) : Effect :=
  Effect.write (resizeSavePath f) (resizeOutImg f)

/-- The whole resize job on a matched file list: the effect trace of the
`for f in files` loop. -/
def resizeJob (files : List PyStr) : List Effect :=
  files.map resizeStep

/-!
### The background-removal batch job

```python
files = glob.glob('./avante n/*.png')
count = 0
for f in files:
    img = Image.open(f).convert('RGB')
    title, ext = os.path.splitext(f)
    index = title.find('\\')
    title = title[:index]
    out = remove(img)
    new_name = title+'_remove'+str(count)+ext
    if not os.path.exists(title+'_remove'):
        os.mkdir(title+'_remove')
    out.save(title+'_remove/'+new_name)
    count+=1
```
-/

/-- The truncation step of the background-removal job:
`title[:title.find('\\')]`. -/
def bgTruncTitle (title : PyStr) : PyStr :=
  pySliceTo title (pyFind title '\\')

/-- The output directory `title + '_remove'` (after truncation) for source
file `f`. -/
def bgDir (f : PyStr) : PyStr :=
  bgTruncTitle (pySplitext f).1 ++ "_remove".toList

/-- `new_name = title + '_remove' + str(count) + ext` (after truncation). -/
def bgNewName (f : PyStr) (count : ℕ) : PyStr :=
  bgTruncTitle (pySplitext f).1 ++ "_remove".toList ++
    (toString count).toList ++ (pySplitext f).2

/-- The path the background-removal job saves to:
`title + '_remove/' + new_name`. -/
def bgSavePath (f : PyStr) (count : ℕ) : PyStr :=
  bgDir f ++ '/' :: bgNewName f count

/-- The image the background-removal job saves:
`remove(Image.open(f).convert('RGB'))`. -/
def bgOutImg (f : PyStr) : PImg :=
  PImg.removedBg (PImg.rgb (PImg.file f))

/-- One iteration of the background-removal loop, given the set of directory
paths that currently exist (`dirs`) and the current counter: the effects
issued (a conditional `mkdir`, then the write) together with the updated set
of existing directories. -/
def bgStep (dirs : List PyStr) (count : ℕ) (f : PyStr) : List Effect × List PyStr :=
  let d := bgDir f
  if d ∈ dirs then
    ([Effect.write (bgSavePath f count) (bgOutImg f)], dirs)
  else
    ([Effect.mkdir d, Effect.write (bgSavePath f count) (bgOutImg f)], d :: dirs)

/-- The whole background-removal job: the effect trace of the loop, threading
the existing-directory set and the counter (`count` starts at 0 in the
script; it is a parameter here so the fold can be stated). -/
def bgTrace (dirs : List PyStr) (count : ℕ) : List PyStr → List Effect
  | [] => []
  | f :: rest =>
      (bgStep dirs count f).1 ++ bgTrace (bgStep dirs count f).2 (count + 1) rest


/-!
## Keras data-pipeline model (`ML test.py`, `image_generator`)

`ImageDataGenerator` holds the configuration passed in the script.  A feed
built by `flow_from_directory` carries its generator, directory, target
size, subset and batch size.  Reading one image from a feed follows Keras's
`DirectoryIterator._get_batches_of_transformed_samples`: draw random
transform parameters from the generator's ranges (`get_random_transform`),
apply them (`apply_transform`, a no-op when the parameters are the
identity), then `standardize` (apply the rescale factor).  This happens for
every subset alike — Keras has no subset check around the transform calls.
Pixel buffers are tracked symbolically by `KImg`.
-/

/-- Configuration record of `ImageDataGenerator`, with the fields the script
uses (defaults as in Keras: all ranges 0, no flip, no rescale).  Fields in
constructor order: rescale, rotation_range, zoom_range, width_shift_range,
height_shift_range, shear_range, horizontal_flip, fill_mode,
validation_split. -/
structure ImageDataGenerator where
  rescale : Option ℚ
  rotation_range : ℚ
  zoom_range : ℚ
  width_shift_range : ℚ
  height_shift_range : ℚ
  shear_range : ℚ
  horizontal_flip : Bool
  fill_mode : PyStr
  validation_split : ℚ
deriving DecidableEq

/-- Random transform parameters produced by
`ImageDataGenerator.get_random_transform`: rotation angle, vertical and
horizontal shift, shear angle, the two zoom factors, and the horizontal-flip
coin. -/
structure TransformParams where
  theta : ℚ
  tx : ℚ
  ty : ℚ
  shear : ℚ
  zx : ℚ
  zy : ℚ
  flip_horizontal : Bool
deriving DecidableEq

/-- One draw of the underlying random source: the uniform variates (each in
`[-1, 1]`) consumed by `get_random_transform`, and the flip coin. -/
structure Rnd where
  u_theta : ℚ
  u_tx : ℚ
  u_ty : ℚ
  u_shear : ℚ
  u_zx : ℚ
  u_zy : ℚ
  coin : Bool
deriving DecidableEq

/-- `get_random_transform`: each parameter is drawn from the range the
generator configures (uniform over `[-range, range]`, zoom over
`[1 - zoom_range, 1 + zoom_range]`); when a range is 0 the parameter is
deterministically the identity value.  The flip fires only when
`horizontal_flip` is set and the coin comes up. -/
def get_random_transform (g : ImageDataGenerator) (r : Rnd) : TransformParams :=
  ⟨g.rotation_range * r.u_theta,
   g.height_shift_range * r.u_tx,
   g.width_shift_range * r.u_ty,
   g.shear_range * r.u_shear,
   1 + g.zoom_range * r.u_zx,
   1 + g.zoom_range * r.u_zy,
   g.horizontal_flip && r.coin⟩

/-- Identity transform parameters: no rotation, shift, shear, zoom or flip. -/
def TransformParams.isIdentity (p : TransformParams) : Bool :=
  decide (p.theta = 0) && decide (p.tx = 0) && decide (p.ty = 0) &&
    decide (p.shear = 0) && decide (p.zx = 1) && decide (p.zy = 1) &&
    !p.flip_horizontal

/-- A Keras-side pixel buffer, tracked symbolically: a stored source image,
a geometrically transformed buffer, or a rescaled buffer. -/
inductive KImg where
  | stored (id : ℕ)
  | warped (p : TransformParams) (img : KImg)
  | rescaled (c : ℚ) (img : KImg)
deriving DecidableEq

/-- `ImageDataGenerator.apply_transform`: identity parameters leave the
buffer unchanged; any non-identity parameter warps the pixels. -/
def apply_transform (p : TransformParams) (x : KImg) : KImg :=
  if p.isIdentity then x else KImg.warped p x

/-- `ImageDataGenerator.standardize`: apply the rescale factor when one is
configured. -/
def standardize (g : ImageDataGenerator) (x : KImg) : KImg :=
  match g.rescale with
  | some c => KImg.rescaled c x
  | none => x

/-- A feed object returned by `flow_from_directory`. -/
structure Feed where
  datagen : ImageDataGenerator
  directory : PyStr
  target_size : ℕ × ℕ
  subset : Option PyStr
  batch_size : ℕ
  color_mode : PyStr
deriving DecidableEq

/-- `ImageDataGenerator.flow_from_directory`, with the arguments the script
passes. -/
def flow_from_directory (g : ImageDataGenerator) (directory : PyStr)
    (target_size : ℕ × ℕ) (subset : Option PyStr) (batch_size : ℕ)
    (color_mode : PyStr) : Feed :=
  ⟨g, directory, target_size, subset, batch_size, color_mode⟩

/-- Reading one image (stored source `id`) from a feed, with random draw
`r`: random transform, then apply it, then standardize — exactly Keras's
`_get_batches_of_transformed_samples` pipeline, for every subset alike. -/
def Feed.read (fd : Feed) (r : Rnd) (id : ℕ) : KImg :=
  standardize fd.datagen (apply_transform (get_random_transform fd.datagen r) (KImg.stored id))

/-- `train_path = './car_image2/train'`. -/
def train_path : PyStr := "./car_image2/train".toList

/-- `test_path = './car_image2/test'`. -/
def test_path : PyStr := "./car_image2/test".toList

/-- `image_generator(image_size, validation_rate, batch_size)` from
`ML test.py`: an augmenting `train_datagen` (rescale 1/255, rotation 20,
zoom 0.15, shifts 0.2, shear 0.15, horizontal flip, fill 'nearest',
validation split) and a rescale-only `test_datagen`; the training and
validation feeds both flow from `train_datagen` over `train_path` with
subsets `'training'` / `'validation'`, the test feed flows from
`test_datagen` over `test_path` with batch size 1. -/
def image_generator (image_size : ℕ) (validation_rate : ℚ) (batch_size : ℕ) :
    Feed × Feed × Feed :=
  let train_datagen : ImageDataGenerator :=
    ⟨some (1/255), 20, 15/100, 2/10, 2/10, 15/100, true, "nearest".toList,
      validation_rate⟩
  let test_datagen : ImageDataGenerator :=
    ⟨some (1/255), 0, 0, 0, 0, 0, false, "nearest".toList, 0⟩
  let train_generator :=
    flow_from_directory train_datagen train_path (image_size, image_size)
      (some "training".toList) batch_size "rgb".toList
  let val_generator :=
    flow_from_directory train_datagen train_path (image_size, image_size)
      (some "validation".toList) batch_size "rgb".toList
  let test_generator :=
    flow_from_directory test_datagen test_path (image_size, image_size)
      none 1 "rgb".toList
  (train_generator, val_generator, test_generator)

/-!
## Model assembler (`ML test.py`, `get_model`)
-/

/-- Activation functions the script uses. -/
inductive Activation where
  | swish
  | softmax
deriving DecidableEq

/-- The layer kinds appearing in `get_model`'s `tf.keras.Sequential` list. -/
inductive Layer where
  | inputLayer (h w c : ℕ)
  | hubLayer (handle : PyStr) (trainable : Bool)
  | batchNormalization (axis : Bool)
  | dense (units : ℕ) (activation : Activation)
  | dropout (rate : ℚ)
deriving DecidableEq

/-- Number of output units of a dense layer (`none` for non-dense layers). -/
def Layer.denseUnits : Layer → Option ℕ
  | .dense u _ => some u
  | _ => none

/-- Whether a layer is a dropout layer. -/
def Layer.isDropout : Layer → Bool
  | .dropout _ => true
  | _ => false

/-- A Keras model: its layer stack, and whether `compile` has been called on
it. -/
structure KModel where
  layers : List Layer
  compiled : Bool
deriving DecidableEq

/-- `get_model(handle, num_classes)`: the `tf.keras.Sequential` stack built
in `ML test.py`, returned without compiling (`model.compile` happens later,
at top level). -/
def get_model (handle : PyStr) (num_classes : ℕ) : KModel :=
  ⟨[Layer.inputLayer 300 300 3,
    Layer.hubLayer handle true,
    Layer.batchNormalization true,
    Layer.dense 1024 Activation.swish,
    Layer.dropout (25/100),
    Layer.dense 512 Activation.swish,
    Layer.dropout (25/100),
    Layer.dense 256 Activation.swish,
    Layer.dense 128 Activation.swish,
    Layer.dense 64 Activation.swish,
    Layer.dense num_classes Activation.softmax],
   false⟩

/-- The softmax function on `n` real scores. -/
noncomputable def softmax (n : ℕ) (x : Fin n → ℝ) (i : Fin n) : ℝ :=
  Real.exp (x i) / ∑ j, Real.exp (x j)

/-!
## Learning-rate schedule (`ML test.py`, `lr_schedule`)

`tf.keras.optimizers.schedules.PiecewiseConstantDecay(boundaries, values)`
returns `values[0]` while the step is `≤ boundaries[0]`, `values[i+1]` while
`boundaries[i] < step ≤ boundaries[i+1]`, and the last value once the step
exceeds the last boundary.  The schedule's argument is the optimizer's step
counter. -/

/-- `PiecewiseConstantDecay`: walk the boundaries; the first boundary the
step does not exceed selects the value; past every boundary, the last value
applies. -/
def piecewiseConstantDecay : List ℕ → List ℚ → ℕ → ℚ
  | b :: bs, v :: vs, step => if step ≤ b then v else piecewiseConstantDecay bs vs step
  | [], v :: _, _ => v
  | _, [], _ => 0

/-- `lr = 0.001`. -/
def lr : ℚ := 1/1000

/-- `lr_schedule = PiecewiseConstantDecay(boundaries=[100, 200],
values=[lr, 0.0005, 0.0001])`. -/
def lr_schedule (step : ℕ) : ℚ :=
  piecewiseConstantDecay [100, 200] [lr, 5/10000, 1/10000] step

/-!
## Checkpoint callback (`ML test.py`, `cp_callback`)

`tf.keras.callbacks.ModelCheckpoint` with `save_best_only=True` and
`monitor='val_accuracy'` resolves `mode='auto'` to max (the monitor name
contains `'acc'`), initialises `best` to `-inf`, and after each epoch saves
(and updates `best`) exactly when `np.greater(current, best)` holds. -/

/-- The configuration record of `ModelCheckpoint` as the script builds it. -/
structure ModelCheckpoint where
  filepath : PyStr
  save_weights_only : Bool
  save_best_only : Bool
  monitor : PyStr
  verbose : ℕ
deriving DecidableEq

/-- `cp_callback = ModelCheckpoint(filepath='./model',
save_weights_only=False, save_best_only=True, monitor='val_accuracy',
verbose=1)`. -/
def cp_callback : ModelCheckpoint :=
  ⟨"./model".toList, false, true, "val_accuracy".toList, 1⟩

/-- One end-of-epoch decision of the callback: with `save_best_only`, save
iff the monitored value strictly exceeds the best so far (`none` models the
initial `-inf`); without it, always save. -/
def checkpointSave (cb : ModelCheckpoint) (best : Option ℚ) (current : ℚ) : Bool :=
  if cb.save_best_only then
    match best with
    | none => true
    | some b => decide (b < current)
  else true

/-- Run the callback over a per-epoch metric sequence: the list of
save/no-save decisions, updating `best` to the current value whenever a save
happens (Keras updates `self.best` only on save). -/
def checkpointRun (cb : ModelCheckpoint) (best : Option ℚ) : List ℚ → List Bool
  | [] => []
  | v :: rest =>
      let w := checkpointSave cb best v
      w :: checkpointRun cb (if w then some v else best) rest

/-- Number of checkpoint writes over a run with the script's callback,
starting from the initial `-inf` best. -/
def cpWriteCount (vs : List ℚ) : ℕ :=
  (checkpointRun cp_callback none vs).count true

/-- Modelled from the spec's words (for refinement comparison only, not from
the source): "truncating the filename at the first path-separator occurrence
after extension-splitting" — the title up to (excluding) the first
occurrence of the separator, and the whole title when the separator does not
occur. -/
def specTruncAtFirstSep (sep : Char) (t : PyStr) : PyStr :=
  if sep ∈ t then t.takeWhile (fun x => x ≠ sep) else t

/-- `v` strictly exceeds the running best (`none` is the initial `-inf` of
the checkpoint callback, exceeded by everything). -/
def optExceeds : Option ℚ → ℚ → Prop
  | none, _ => True
  | some b, v => b < v

/-!
## Helper lemmas (shared)
-/

lemma pyFindAux_eq_none_of_not_mem (c : Char) (t : PyStr) (h : c ∉ t) :
    pyFindAux c t = none := by
  induction t with
  | nil => rfl
  | cons a rest ih =>
      have ha : ¬ a = c := fun e => h (List.mem_cons.mpr (Or.inl e.symm))
      have hrest : c ∉ rest := fun hm => h (List.mem_cons_of_mem a hm)
      simp [pyFindAux, ha, ih hrest]

lemma pyFindAux_isSome_of_mem (c : Char) (t : PyStr) (h : c ∈ t) :
    ∃ i, pyFindAux c t = some i := by
  induction t with
  | nil => cases h
  | cons a rest ih =>
      by_cases ha : a = c
      · exact ⟨0, by simp [pyFindAux, ha]⟩
      · have hrest : c ∈ rest := (List.mem_cons.mp h).resolve_left (fun e => ha e.symm)
        obtain ⟨i, hi⟩ := ih hrest
        exact ⟨i + 1, by simp [pyFindAux, ha, hi]⟩

lemma take_pyFindAux_eq_takeWhile (c : Char) (t : PyStr) (i : ℕ)
    (h : pyFindAux c t = some i) :
    t.take i = t.takeWhile (fun x => x ≠ c) := by
  induction t generalizing i with
  | nil => simp [pyFindAux] at h
  | cons a rest ih =>
      by_cases ha : a = c
      · subst ha
        simp [pyFindAux] at h
        subst h
        simp [List.takeWhile_cons]
      · simp only [pyFindAux, if_neg ha, Option.map_eq_some'] at h
        obtain ⟨j, hj, rfl⟩ := h
        have hpred : (fun x => decide (x ≠ c)) a = true := by simp [ha]
        simp [List.take_succ_cons, List.takeWhile_cons, ha, ih j hj]

/-- With no backslash in the title, `title.find` is `-1` (the mechanics of
line 12 of `누끼.py`). -/
lemma pyFind_eq_neg_one_of_not_mem (t : PyStr) (h : '\\' ∉ t) :
    pyFind t '\\' = -1 := by
  simp [pyFind, pyFindAux_eq_none_of_not_mem '\\' t h]

/-- `title[:-1]` drops the last character. -/
lemma pySliceTo_neg_one (t : PyStr) : pySliceTo t (-1) = t.dropLast := by
  simp [pySliceTo, List.dropLast_eq_take]

/-- The truncation step on a backslash-free title drops the last
character. -/
lemma bgTruncTitle_of_not_mem (t : PyStr) (h : '\\' ∉ t) :
    bgTruncTitle t = t.dropLast := by
  rw [bgTruncTitle, pyFind_eq_neg_one_of_not_mem t h, pySliceTo_neg_one]

/-- The truncation step on a title containing a backslash keeps the prefix
before the first backslash. -/
lemma bgTruncTitle_of_mem (t : PyStr) (h : '\\' ∈ t) :
    bgTruncTitle t = t.takeWhile (fun x => x ≠ '\\') := by
  obtain ⟨i, hi⟩ := pyFindAux_isSome_of_mem '\\' t h
  have h1 : pyFind t '\\' = (i : Int) := by rw [pyFind, hi]
  rw [bgTruncTitle, h1, pySliceTo, if_neg (by omega), Int.toNat_natCast]
  exact take_pyFindAux_eq_takeWhile '\\' t i hi

/-- `os.path.splitext` splits the path: root and extension concatenate back
to the path. -/
lemma pySplitext_append (p : PyStr) : (pySplitext p).1 ++ (pySplitext p).2 = p := by
  rw [pySplitext]
  split
  · exact List.take_append_drop _ p
  · simp

/-- A list containing `c` splits as the prefix before the first `c`, then
`c`, then a tail. -/
lemma takeWhile_ne_decomp (c : Char) (t : PyStr) (h : c ∈ t) :
    ∃ t2, t = t.takeWhile (fun x => x ≠ c) ++ c :: t2 := by
  induction t with
  | nil => cases h
  | cons a rest ih =>
      by_cases ha : a = c
      · subst ha
        refine ⟨rest, ?_⟩
        rw [List.takeWhile_cons_of_neg (by simp)]
        rfl
      · have hrest : c ∈ rest := (List.mem_cons.mp h).resolve_left fun e => ha e.symm
        obtain ⟨t2, ht2⟩ := ih hrest
        refine ⟨t2, ?_⟩
        rw [List.takeWhile_cons_of_pos (by simp [ha]), List.cons_append, ← ht2]

lemma checkpointRun_length (cb : ModelCheckpoint) (best : Option ℚ) (vs : List ℚ) :
    (checkpointRun cb best vs).length = vs.length := by
  induction vs generalizing best with
  | nil => rfl
  | cons v rest ih => simp [checkpointRun, ih]

/-- The save decision of the script's callback is exactly "strictly exceeds
the best so far". -/
lemma checkpointSave_best_iff (best : Option ℚ) (v : ℚ) :
    checkpointSave cp_callback best v = true ↔ optExceeds best v := by
  cases best <;> simp [checkpointSave, cp_callback, optExceeds]

/-- After one step, the threaded best is exceeded by `x` iff the old best
was and the step's value is below `x` (the threaded best is the running
max). -/
lemma optExceeds_update (best : Option ℚ) (v x : ℚ) :
    optExceeds (if checkpointSave cp_callback best v then some v else best) x ↔
      optExceeds best x ∧ v < x := by
  by_cases hw : checkpointSave cp_callback best v = true
  · rw [if_pos hw]
    rw [checkpointSave_best_iff] at hw
    cases best with
    | none =>
        simp only [optExceeds, true_and]
    | some b =>
        simp only [optExceeds] at hw ⊢
        exact ⟨fun hvx => ⟨lt_trans hw hvx, hvx⟩, fun hp => hp.2⟩
  · rw [if_neg hw]
    have hv : ¬ optExceeds best v := fun hx => hw ((checkpointSave_best_iff best v).mpr hx)
    cases best with
    | none => exact absurd trivial hv
    | some b =>
        have hvb : v ≤ b := not_lt.mp hv
        simp only [optExceeds]
        exact ⟨fun hbx => ⟨hbx, lt_of_le_of_lt hvb hbx⟩, fun hp => hp.1⟩

/-- Characterisation of the save decisions of a run: position `i` saves iff
the monitored value strictly exceeds the carried-in best and every earlier
value in the run. -/
lemma checkpointRun_getElem_true (vs : List ℚ) :
    ∀ (best : Option ℚ) (i : ℕ) (h : i < vs.length),
      ((checkpointRun cp_callback best vs)[i]? = some true ↔
        (optExceeds best (vs.get ⟨i, h⟩) ∧
          ∀ (j : ℕ) (hj : j < i), vs.get ⟨j, hj.trans h⟩ < vs.get ⟨i, h⟩)) := by
  induction vs with
  | nil => intro best i h; simp at h
  | cons v rest ih =>
      intro best i h
      match i with
      | 0 =>
          simp only [checkpointRun]
          rw [List.getElem?_cons_zero, Option.some_inj, checkpointSave_best_iff]
          exact ⟨fun h1 => ⟨h1, fun j hj => absurd hj (Nat.not_lt_zero j)⟩, fun hp => hp.1⟩
      | i' + 1 =>
          simp only [checkpointRun]
          rw [List.getElem?_cons_succ]
          have h' : i' < rest.length := Nat.lt_of_succ_lt_succ h
          rw [ih (if checkpointSave cp_callback best v then some v else best) i' h',
            optExceeds_update]
          constructor
          · rintro ⟨⟨hbx, hvx⟩, hall⟩
            refine ⟨hbx, ?_⟩
            intro j hj
            match j with
            | 0 => exact hvx
            | j' + 1 => exact hall j' (Nat.lt_of_succ_lt_succ hj)
          · rintro ⟨hbx, hall⟩
            exact ⟨⟨hbx, hall 0 (Nat.succ_pos i')⟩,
              fun j' hj' => hall (j' + 1) (Nat.succ_lt_succ hj')⟩

lemma writesOf_append (a b : List Effect) :
    writesOf (a ++ b) = writesOf a ++ writesOf b :=
  List.filterMap_append a b _

/-- Each loop iteration of the background-removal job writes exactly one
file, at `bgSavePath`. -/
lemma writesOf_bgStep (dirs : List PyStr) (count : ℕ) (f : PyStr) :
    writesOf (bgStep dirs count f).1 = [bgSavePath f count] := by
  by_cases hmem : bgDir f ∈ dirs <;> simp [bgStep, hmem, writesOf]

/-- The background-removal job writes one file per matched source file. -/
lemma bgTrace_writes_length (files : List PyStr) :
    ∀ (dirs : List PyStr) (count : ℕ),
      (writesOf (bgTrace dirs count files)).length = files.length := by
  induction files with
  | nil => intro dirs count; rfl
  | cons f rest ih =>
      intro dirs count
      rw [bgTrace, writesOf_append, writesOf_bgStep, List.length_append]
      simp [ih]
      omega

/-- The `k`-th write of the background-removal job goes to the save path of
the `k`-th matched file with counter `count + k`. -/
lemma bgTrace_writes_getElem (files : List PyStr) :
    ∀ (dirs : List PyStr) (count k : ℕ) (h : k < files.length),
      (writesOf (bgTrace dirs count files))[k]? =
        some (bgSavePath (files.get ⟨k, h⟩) (count + k)) := by
  induction files with
  | nil => intro dirs count k h; simp at h
  | cons f rest ih =>
      intro dirs count k h
      rw [bgTrace, writesOf_append, writesOf_bgStep]
      match k with
      | 0 => simp
      | k' + 1 =>
          rw [List.singleton_append, List.getElem?_cons_succ,
            ih _ (count + 1) k' (Nat.lt_of_succ_lt_succ h)]
          have hc : count + 1 + k' = count + (k' + 1) := by omega
          rw [hc]
          rfl

/-- The background-removal job never issues a delete effect. -/
lemma bgTrace_no_delete (files : List PyStr) :
    ∀ (dirs : List PyStr) (count : ℕ) (e : Effect),
      e ∈ bgTrace dirs count files → ∀ p : PyStr, e ≠ Effect.delete p := by
  induction files with
  | nil => intro dirs count e he; simp [bgTrace] at he
  | cons f rest ih =>
      intro dirs count e he p
      rw [bgTrace] at he
      rcases List.mem_append.mp he with h1 | h2
      · have h3 : e = Effect.mkdir (bgDir f) ∨
            e = Effect.write (bgSavePath f count) (bgOutImg f) := by
          by_cases hmem : bgDir f ∈ dirs
          · simp [bgStep, hmem] at h1
            exact Or.inr h1
          · simpa [bgStep, hmem] using h1
        rcases h3 with rfl | rfl
        · exact fun hcon => Effect.noConfusion hcon
        · exact fun hcon => Effect.noConfusion hcon
      · exact ih _ _ e h2 p

/-- The decomposition of the background-removal save path at the truncated
title: the truncated title, then `'_remove/'`, then the new file name. -/
lemma bgSavePath_decomp (f : PyStr) (count : ℕ) :
    bgSavePath f count =
      bgTruncTitle (pySplitext f).1 ++
        '_' :: 'r' :: 'e' :: 'm' :: 'o' :: 'v' :: 'e' :: '/' :: bgNewName f count := by
  rw [bgSavePath, bgDir, List.append_assoc]
  rfl

/-- The background-removal job never writes to the file it is currently
processing, provided that file's extension starts with a dot (as every
glob-matched `*.png` file's does). -/
lemma bgSavePath_ne_self (f : PyStr) (count : ℕ)
    (hext : (pySplitext f).2.head? = some '.') :
    bgSavePath f count ≠ f := by
  intro heq
  have hf : (pySplitext f).1 ++ (pySplitext f).2 = f := pySplitext_append f
  obtain ⟨ext', hext'⟩ : ∃ e', (pySplitext f).2 = '.' :: e' := by
    cases he2 : (pySplitext f).2 with
    | nil => rw [he2] at hext; simp at hext
    | cons x xs =>
        rw [he2] at hext
        simp only [List.head?_cons, Option.some_inj] at hext
        exact ⟨xs, by rw [hext]⟩
  by_cases hbs : '\\' ∈ (pySplitext f).1
  · obtain ⟨t2, ht2⟩ := takeWhile_ne_decomp '\\' (pySplitext f).1 hbs
    have h2 : f = ((pySplitext f).1).takeWhile (fun x => x ≠ '\\') ++
        '\\' :: (t2 ++ (pySplitext f).2) := by
      conv_lhs => rw [← hf]
      conv_lhs => rw [ht2]
      rw [List.append_assoc, List.cons_append]
    have heq2 := heq.trans h2
    rw [bgSavePath_decomp, bgTruncTitle_of_mem _ hbs] at heq2
    have h3 := List.append_cancel_left heq2
    injection h3 with h4 _
    exact absurd h4 (by decide)
  · have htr : bgTruncTitle (pySplitext f).1 = ((pySplitext f).1).dropLast :=
      bgTruncTitle_of_not_mem _ hbs
    rcases eq_or_ne (pySplitext f).1 [] with hnil | hne
    · have h2 : f = '.' :: ext' := by
        rw [← hf, hnil, hext']
        rfl
      have heq2 := heq.trans h2
      rw [bgSavePath_decomp, htr, hnil] at heq2
      simp only [List.dropLast_nil, List.nil_append] at heq2
      injection heq2 with h4 _
      exact absurd h4 (by decide)
    · obtain ⟨c, hc⟩ : ∃ c, (pySplitext f).1 = ((pySplitext f).1).dropLast ++ [c] :=
        ⟨((pySplitext f).1).getLast hne, (List.dropLast_append_getLast hne).symm⟩
      have h2 : f = ((pySplitext f).1).dropLast ++ c :: '.' :: ext' := by
        conv_lhs => rw [← hf]
        conv_lhs => rw [hc, hext']
        rw [List.append_assoc]
        rfl
      have heq2 := heq.trans h2
      rw [bgSavePath_decomp, htr] at heq2
      have h3 := List.append_cancel_left heq2
      injection h3 with _ h5
      injection h5 with h6 _
      exact absurd h6 (by decide)

/-!
## Claim theorems
-/

/-- C1 (code bug, evaluated at the failing input): the validation feed built
by `image_generator` is drawn from the same augmenting `train_datagen` as
the training feed, so its reads depend on the random transform draw — an
all-zero draw yields the rescaled stored image, but a draw with the
rotation variate at 1 yields a 20°-rotated (warped) image, different from
the rescaled stored source; the spec requires validation reads to be
rescale-only and identical across repeated reads.  The test feed, from the
rescale-only `test_datagen`, does behave as the spec says on both draws. -/
theorem C1_val_feed_augmented_eval :
    (image_generator 300 (1/5) 16).2.1.datagen =
      (image_generator 300 (1/5) 16).1.datagen ∧
    (image_generator 300 (1/5) 16).2.1.datagen.rotation_range = 20 ∧
    (image_generator 300 (1/5) 16).2.1.read ⟨0, 0, 0, 0, 0, 0, false⟩ 7 =
      KImg.rescaled (1/255) (KImg.stored 7) ∧
    (image_generator 300 (1/5) 16).2.1.read ⟨1, 0, 0, 0, 0, 0, false⟩ 7 =
      KImg.rescaled (1/255) (KImg.warped ⟨20, 0, 0, 0, 1, 1, false⟩ (KImg.stored 7)) ∧
    (image_generator 300 (1/5) 16).2.1.read ⟨1, 0, 0, 0, 0, 0, false⟩ 7 ≠
      (image_generator 300 (1/5) 16).2.1.read ⟨0, 0, 0, 0, 0, 0, false⟩ 7 ∧
    (image_generator 300 (1/5) 16).2.2.read ⟨0, 0, 0, 0, 0, 0, false⟩ 7 =
      KImg.rescaled (1/255) (KImg.stored 7) ∧
    (image_generator 300 (1/5) 16).2.2.read ⟨1, 0, 0, 0, 0, 0, false⟩ 7 =
      KImg.rescaled (1/255) (KImg.stored 7) := by
  refine ⟨rfl, rfl, ?_, ?_, ?_, ?_, ?_⟩ <;>
    simp [image_generator, flow_from_directory, Feed.read, standardize,
      apply_transform, get_random_transform, TransformParams.isIdentity]

/-- C2 (counterexample): on the fabricated per-epoch `val_accuracy` sequence
`[0.5, 0.6, 0.55, 0.7]`, the checkpoint callback writes three times, not
two: Keras initialises the best to `-inf`, so the first epoch (0.5) also
writes. -/
theorem C2_counterexample :
    cpWriteCount [1/2, 3/5, 11/20, 7/10] = 3 ∧
    ¬ cpWriteCount [1/2, 3/5, 11/20, 7/10] = 2 := by
  norm_num [cpWriteCount, checkpointRun, checkpointSave, cp_callback]

/-- C2 (amended): the callback persists the full model (`save_weights_only`
is false) to the fixed path `./model`, and with `save_best_only` it writes
after epoch `i` iff that epoch's monitored value strictly exceeds every
earlier epoch's value in the run — in particular the first epoch always
writes (best starts at `-inf`) and ties do not overwrite; on the fabricated
sequence `[0.5, 0.6, 0.55, 0.7]` exactly three writes occur. -/
theorem C2_checkpoint_amended :
    cp_callback.filepath = "./model".toList ∧
    cp_callback.save_weights_only = false ∧
    cp_callback.save_best_only = true ∧
    (∀ (vs : List ℚ) (i : ℕ) (h : i < vs.length),
      ((checkpointRun cp_callback none vs)[i]? = some true ↔
        ∀ (j : ℕ) (hj : j < i), vs.get ⟨j, hj.trans h⟩ < vs.get ⟨i, h⟩)) ∧
    cpWriteCount [1/2, 3/5, 11/20, 7/10] = 3 := by
  refine ⟨rfl, rfl, rfl, ?_,
    by norm_num [cpWriteCount, checkpointRun, checkpointSave, cp_callback]⟩
  intro vs i h
  rw [checkpointRun_getElem_true vs none i h]
  simp [optExceeds]

/-- C2 (witness): on the run `[0.5, 0.6]`, epoch 1 writes, since 0.5 < 0.6. -/
theorem C2_witness :
    (1 : ℕ) < ([1/2, 3/5] : List ℚ).length ∧
    (checkpointRun cp_callback none [1/2, 3/5])[1]? = some true := by
  refine ⟨by decide, ?_⟩
  refine (C2_checkpoint_amended.2.2.2.1 [1/2, 3/5] 1 (by decide)).mpr ?_
  intro j hj
  have hj0 : j = 0 := Nat.lt_one_iff.mp hj
  subst hj0
  show (1 : ℚ)/2 < 3/5
  norm_num

/-- C3 (counterexample): `PiecewiseConstantDecay` treats its boundaries as
inclusive upper bounds, so at counter value 100 the rate is still 0.001
(the claim puts 100 in the 0.0005 band) and at 200 it is still 0.0005 (the
claim puts 200 in the 0.0001 band). -/
theorem C3_counterexample :
    lr_schedule 100 = 1/1000 ∧ ¬ lr_schedule 100 = 5/10000 ∧
    lr_schedule 200 = 5/10000 ∧ ¬ lr_schedule 200 = 1/10000 := by
  norm_num [lr_schedule, piecewiseConstantDecay, lr]

/-- C3 (amended): the learning-rate schedule is piecewise constant with
three levels whose thresholds are inclusive: 0.001 for counter values in
`[0, 100]`, 0.0005 on `(100, 200]`, and 0.0001 beyond 200 (the counter the
optimizer feeds the schedule is its step counter). -/
theorem C3_schedule_amended (step : ℕ) :
    lr_schedule step =
      if step ≤ 100 then 1/1000 else if step ≤ 200 then 5/10000 else 1/10000 := rfl

/-- C4: for every handle and class count, `get_model` returns an uncompiled
stack in exactly the claimed order — input layer 300×300×3, the trainable
hub extractor, batch normalization, dense 1024/512/256/128/64 each with the
swish nonlinearity, dropout exactly after the 1024 and 512 layers (two
dropouts in total), and a final dense layer with `num_classes` units and
softmax activation. -/
theorem C4_model_stack (handle : PyStr) (num_classes : ℕ) :
    (get_model handle num_classes).compiled = false ∧
    (get_model handle num_classes).layers =
      [Layer.inputLayer 300 300 3,
       Layer.hubLayer handle true,
       Layer.batchNormalization true,
       Layer.dense 1024 Activation.swish,
       Layer.dropout (25/100),
       Layer.dense 512 Activation.swish,
       Layer.dropout (25/100),
       Layer.dense 256 Activation.swish,
       Layer.dense 128 Activation.swish,
       Layer.dense 64 Activation.swish,
       Layer.dense num_classes Activation.softmax] ∧
    (get_model handle num_classes).layers.filterMap Layer.denseUnits =
      [1024, 512, 256, 128, 64, num_classes] ∧
    ((get_model handle num_classes).layers.filter fun l => l.isDropout).length = 2 :=
  ⟨rfl, rfl, rfl, rfl⟩

/-- C5: every file matched by the resize job's glob gets exactly one write,
at the sibling path `title + '_half' + ext` (the `_half` suffix inserted
between the extension-stripped name and the extension), and the written
image has resolution exactly 256×256 under every environment of source
resolutions — independent of the input's resolution or aspect ratio. -/
theorem C5_resize_output (files : List PyStr) (f : PyStr) (h : f ∈ files) :
    Effect.write (resizeSavePath f) (resizeOutImg f) ∈ resizeJob files ∧
    resizeSavePath f = (pySplitext f).1 ++ "_half".toList ++ (pySplitext f).2 ∧
    ∀ env : PyStr → ℕ × ℕ, pimgSize env (resizeOutImg f) = (256, 256) :=
  ⟨List.mem_map_of_mem resizeStep h, rfl, fun _ => rfl⟩

/-- C5 (witness): the job on the single matched file `./data/k9/img7.jpg`
writes a 256×256 image to `./data/k9/img7_half.jpg`. -/
theorem C5_witness :
    "./data/k9/img7.jpg".toList ∈ ([ "./data/k9/img7.jpg".toList ] : List PyStr) ∧
    Effect.write (resizeSavePath "./data/k9/img7.jpg".toList)
        (resizeOutImg "./data/k9/img7.jpg".toList) ∈
      resizeJob [ "./data/k9/img7.jpg".toList ] ∧
    resizeSavePath "./data/k9/img7.jpg".toList = "./data/k9/img7_half.jpg".toList :=
  ⟨by decide,
   (C5_resize_output [ "./data/k9/img7.jpg".toList ] _ (by decide)).1,
   by decide⟩

/-- C6 (counterexample): for the glob-shaped POSIX path `./avante n/a.png`,
the job's output directory is `./avante n/_remove` — the title with its
last character dropped, plus `_remove` — which is neither "title truncated
at the first `/`" (`._remove`) nor "title truncated at the first `\`,
i.e. untruncated" (`./avante n/a_remove`); so the claimed derivation
("truncate at the first path-separator occurrence") does not describe the
code on separator-free titles. -/
theorem C6_counterexample :
    bgDir "./avante n/a.png".toList = "./avante n/_remove".toList ∧
    bgDir "./avante n/a.png".toList ≠
      specTruncAtFirstSep '/' (pySplitext "./avante n/a.png".toList).1 ++
        "_remove".toList ∧
    bgDir "./avante n/a.png".toList ≠
      specTruncAtFirstSep '\\' (pySplitext "./avante n/a.png".toList).1 ++
        "_remove".toList := by
  refine ⟨by decide, by decide, by decide⟩

/-- C6 (amended): each iteration of the background-removal job derives the
output directory as the truncated title plus `_remove` — where the
truncated title is the prefix before the first backslash when the
extension-stripped title contains one, and the title minus its final
character otherwise — creates that directory exactly when absent, and
writes under the name combining the truncated title, `_remove`, the current
zero-based counter, and the original extension, inside that directory. -/
theorem C6_bg_output_naming (dirs : List PyStr) (count : ℕ) (f : PyStr) :
    (bgStep dirs count f).1 =
      (if bgDir f ∈ dirs then [] else [Effect.mkdir (bgDir f)]) ++
        [Effect.write
          (bgDir f ++ '/' ::
            (bgTruncTitle (pySplitext f).1 ++ "_remove".toList ++
              (toString count).toList ++ (pySplitext f).2))
          (bgOutImg f)] ∧
    (bgStep dirs count f).2 = (if bgDir f ∈ dirs then dirs else bgDir f :: dirs) ∧
    bgTruncTitle (pySplitext f).1 =
      (if '\\' ∈ (pySplitext f).1 then
        ((pySplitext f).1).takeWhile (fun x => x ≠ '\\')
      else ((pySplitext f).1).dropLast) := by
  refine ⟨?_, ?_, ?_⟩
  · by_cases hmem : bgDir f ∈ dirs <;>
      simp [bgStep, hmem, bgSavePath, bgNewName]
  · by_cases hmem : bgDir f ∈ dirs <;> simp [bgStep, hmem]
  · by_cases hbs : '\\' ∈ (pySplitext f).1
    · rw [if_pos hbs, bgTruncTitle_of_mem _ hbs]
    · rw [if_neg hbs, bgTruncTitle_of_not_mem _ hbs]

/-- C7: within one run (counter starting at 0), the background-removal job
performs exactly one write per matched file, and the `k`-th write (0-based)
goes to the save path of the `k`-th matched file with counter value `k` —
the counter persists across files and increments once per file, regardless
of the existing-directory state. -/
theorem C7_counter_naming (files dirs : List PyStr) (k : ℕ) (h : k < files.length) :
    (writesOf (bgTrace dirs 0 files))[k]? =
      some (bgSavePath (files.get ⟨k, h⟩) k) ∧
    (writesOf (bgTrace dirs 0 files)).length = files.length := by
  refine ⟨?_, bgTrace_writes_length files dirs 0⟩
  have h0 := bgTrace_writes_getElem files dirs 0 k h
  simpa using h0

/-- C7 (witness): with two matched files, the second (index 1) is written
with counter value 1. -/
theorem C7_witness :
    (1 : ℕ) <
      ([ "./avante n/a.png".toList, "./avante n/b.png".toList ] : List PyStr).length ∧
    (writesOf
        (bgTrace [] 0 [ "./avante n/a.png".toList, "./avante n/b.png".toList ]))[1]? =
      some (bgSavePath "./avante n/b.png".toList 1) :=
  ⟨by decide,
   (C7_counter_naming [ "./avante n/a.png".toList, "./avante n/b.png".toList ]
      [] 1 (by decide)).1⟩

/-- C8 (counterexample): the resize job's derived output path can coincide
with a different matched source file, which is then overwritten.  With
matched files `./data/k9/a.jpg` and `./data/k9/a_half.jpg`, processing the
first writes to `./data/k9/a_half.jpg`; after the run that source file's
content is the resized image derived from `a.jpg`, not its stored
content. -/
theorem C8_counterexample :
    "./data/k9/a_half.jpg".toList ∈
      ([ "./data/k9/a.jpg".toList, "./data/k9/a_half.jpg".toList ] : List PyStr) ∧
    resizeSavePath "./data/k9/a.jpg".toList = "./data/k9/a_half.jpg".toList ∧
    runEffects
        (fun q =>
          if q = "./data/k9/a.jpg".toList then some (PImg.file "./data/k9/a.jpg".toList)
          else if q = "./data/k9/a_half.jpg".toList then
            some (PImg.file "./data/k9/a_half.jpg".toList)
          else none)
        (resizeJob [ "./data/k9/a.jpg".toList, "./data/k9/a_half.jpg".toList ])
        "./data/k9/a_half.jpg".toList =
      some (resizeOutImg "./data/k9/a.jpg".toList) ∧
    some (resizeOutImg "./data/k9/a.jpg".toList) ≠
      some (PImg.file "./data/k9/a_half.jpg".toList) := by
  refine ⟨by decide, by decide, by decide, by decide⟩

/-- C8 (amended): neither batch job ever issues a delete effect, and neither
job writes to the file it is currently processing (for the background
removal job, provided the file's extension starts with a dot, as for every
glob-matched `*.png` file); outputs go only to derived paths — but, per the
counterexample, a derived path may coincide with a *different* matched
source file of the resize job, which is then overwritten. -/
theorem C8_frame_amended :
    (∀ (files : List PyStr) (e : Effect),
      e ∈ resizeJob files → ∀ p : PyStr, e ≠ Effect.delete p) ∧
    (∀ (dirs : List PyStr) (count : ℕ) (files : List PyStr) (e : Effect),
      e ∈ bgTrace dirs count files → ∀ p : PyStr, e ≠ Effect.delete p) ∧
    (∀ f : PyStr, resizeSavePath f ≠ f) ∧
    (∀ (f : PyStr) (count : ℕ),
      (pySplitext f).2.head? = some '.' → bgSavePath f count ≠ f) := by
  refine ⟨?_, ?_, ?_, ?_⟩
  · intro files e he p
    obtain ⟨f, _, rfl⟩ := List.mem_map.mp he
    exact fun hcon => Effect.noConfusion hcon
  · intro dirs count files e he p
    exact bgTrace_no_delete files dirs count e he p
  · intro f heq
    have hl := congrArg List.length heq
    have hf := congrArg List.length (pySplitext_append f)
    have h5 : ("_half".toList : List Char).length = 5 := rfl
    rw [resizeSavePath, List.length_append, List.length_append, h5] at hl
    rw [List.length_append] at hf
    omega
  · intro f count hext
    exact bgSavePath_ne_self f count hext

/-- C8 (witness): concrete instances — the single write of the resize job on
`./x/a.jpg` is not a delete and does not target the processed file, and the
background-removal write for `./avante n/b.png` does not target that
file. -/
theorem C8_witness :
    resizeStep "./x/a.jpg".toList ∈ resizeJob [ "./x/a.jpg".toList ] ∧
    resizeStep "./x/a.jpg".toList ≠ Effect.delete "./x/a.jpg".toList ∧
    resizeSavePath "./x/a.jpg".toList ≠ "./x/a.jpg".toList ∧
    (pySplitext "./avante n/b.png".toList).2.head? = some '.' ∧
    bgSavePath "./avante n/b.png".toList 0 ≠ "./avante n/b.png".toList :=
  ⟨by decide,
   C8_frame_amended.1 [ "./x/a.jpg".toList ] _ (by decide) _,
   C8_frame_amended.2.2.1 _,
   by decide,
   C8_frame_amended.2.2.2 _ 0 (by decide)⟩

/-- C9: for every handle and positive class count, the model returned by
`get_model` ends in a dense layer with exactly `num_classes` units and
softmax activation, and softmax over any real score vector sums to 1 across
the classes. -/
theorem C9_softmax_normalized (handle : PyStr) (num_classes : ℕ)
    (h : 0 < num_classes) :
    (get_model handle num_classes).layers.getLast? =
      some (Layer.dense num_classes Activation.softmax) ∧
    ∀ x : Fin num_classes → ℝ, ∑ i, softmax num_classes x i = 1 := by
  constructor
  · rfl
  · intro x
    haveI : Nonempty (Fin num_classes) := ⟨⟨0, h⟩⟩
    have hpos : (0 : ℝ) < ∑ j, Real.exp (x j) :=
      Finset.sum_pos (fun j _ => Real.exp_pos (x j)) Finset.univ_nonempty
    unfold softmax
    rw [← Finset.sum_div]
    exact div_self (ne_of_gt hpos)

/-- C9 (witness): at the default class count 4, the final layer has 4 units
with softmax and the output distribution sums to 1. -/
theorem C9_witness :
    0 < 4 ∧
    ((get_model "hub".toList 4).layers.getLast? =
        some (Layer.dense 4 Activation.softmax) ∧
      ∀ x : Fin 4 → ℝ, ∑ i, softmax 4 x i = 1) :=
  ⟨by decide, C9_softmax_normalized "hub".toList 4 (by decide)⟩

/-- C10: in the background-removal job's truncation step, when the
extension-stripped title contains no backslash, `title.find` returns `-1`
and `title[:index]` drops exactly the last character of the title; the
prefix up to the first backslash is kept exactly when a backslash is
present. -/
theorem C10_truncation_mechanics (t : PyStr) :
    ('\\' ∉ t → pyFind t '\\' = -1 ∧ bgTruncTitle t = t.dropLast) ∧
    ('\\' ∈ t → bgTruncTitle t = t.takeWhile (fun x => x ≠ '\\')) :=
  ⟨fun h => ⟨pyFind_eq_neg_one_of_not_mem t h, bgTruncTitle_of_not_mem t h⟩,
   fun h => bgTruncTitle_of_mem t h⟩

/-- C10 (witness): on the backslash-free title `./avante n/a`, `find`
returns `-1` and the truncation drops exactly the final `a`. -/
theorem C10_witness :
    '\\' ∉ "./avante n/a".toList ∧
    pyFind "./avante n/a".toList '\\' = -1 ∧
    bgTruncTitle "./avante n/a".toList = ("./avante n/a".toList).dropLast :=
  ⟨by decide,
   ((C10_truncation_mechanics "./avante n/a".toList).1 (by decide)).1,
   ((C10_truncation_mechanics "./avante n/a".toList).1 (by decide)).2⟩
